import Mathlib

/-!
Verification development for the antibody-kinetics posterior engine
(src/src/posterior.cpp).  The C++ code is shallowly embedded: doubles are
modelled as exact rationals, C `int`s as `ℤ`, and the IEEE behaviour of
`log` on non-positive arguments (`-inf` / NaN) is modelled by an explicit
extended-value type.  The natural logarithm's finite values are abstracted
by a function parameter `L : ℚ → ℚ`; only the structure of the IEEE
special cases matters for the statements below, never the numeric value
of a logarithm.
-/

/-- Embedding of `obs_error` (posterior.cpp lines 18-24).
`double obs_error(int actual, int obs, double S, double EA, int MAX_TITRE)`.
The C++ cascade of `if`/`else if` is reproduced branch for branch;
`MAX_TITRE - 2.0` is int-to-double promotion followed by exact subtraction. -/
def obs_error (actual obs : ℤ) (S EA : ℚ) (MAX_TITRE : ℤ) : ℚ :=
  if actual = MAX_TITRE ∧ obs = MAX_TITRE then
    S + EA / 2 - (1 / ((MAX_TITRE : ℚ) - 2)) * (1 - S - EA)
  else if actual = 0 ∧ obs = 0 then
    S + EA / 2 - (1 / ((MAX_TITRE : ℚ) - 2)) * (1 - S - EA)
  else if actual = obs then S
  else if actual = obs + 1 ∨ actual = obs - 1 then EA / 2
  else (1 / ((MAX_TITRE : ℚ) - 2)) * (1 - S - EA)

/-- The observation-probability kernel written directly from the spec's words
(spec §4.2): one clause for the two boundary bins together, then exact match,
then "exactly one unit away", then the uniform residual.  Used only to compare
against `obs_error`, which is the code's version. -/
def obs_error_spec (actual obs : ℤ) (S EA : ℚ) (MAX_TITRE : ℤ) : ℚ :=
  if (actual = MAX_TITRE ∧ obs = MAX_TITRE) ∨ (actual = 0 ∧ obs = 0) then
    S + EA / 2 - (1 / ((MAX_TITRE : ℚ) - 2)) * (1 - S - EA)
  else if actual = obs then S
  else if actual - obs = 1 ∨ obs - actual = 1 then EA / 2
  else (1 / ((MAX_TITRE : ℚ) - 2)) * (1 - S - EA)

/-- IEEE-double values reachable by the log-likelihood accumulator: a finite
value, `-inf` (from `log 0`), or NaN (from `log` of a negative number). -/
inductive FVal where
  | fin (x : ℚ)
  | neginf
  | nan
  deriving DecidableEq, Repr

/-- IEEE addition restricted to the values that actually arise here
(`+inf` never appears): NaN absorbs, then `-inf` absorbs, finite adds. -/
def FVal.add : FVal → FVal → FVal
  | .nan, _ => .nan
  | _, .nan => .nan
  | .neginf, _ => .neginf
  | _, .neginf => .neginf
  | .fin x, .fin y => .fin (x + y)

/-- Whether an `FVal` is finite. -/
def FVal.isFin : FVal → Bool
  | .fin _ => true
  | _ => false

/-- IEEE `log` with its finite values abstracted by `L`: positive arguments
give a finite result, `log 0 = -inf`, `log` of a negative number is NaN. -/
def flog (L : ℚ → ℚ) (x : ℚ) : FVal :=
  if 0 < x then .fin (L x) else if x = 0 then .neginf else .nan

/-- C-style conversion of a double to `int`: truncation toward zero
(used for `int MAX_TITRE = params(2);`). -/
def ratToInt (q : ℚ) : ℤ := if q < 0 then ⌈q⌉ else ⌊q⌋

/-- `params(0)`, the exact-match probability S as read by `obs_likelihood`. -/
def obsS (params : List ℚ) : ℚ := params.getD 0 0

/-- `params(1)`, the adjacent-mass probability EA as read by `obs_likelihood`. -/
def obsEA (params : List ℚ) : ℚ := params.getD 1 0

/-- `params(2)` converted to `int`, the MAX_TITRE read by `obs_likelihood`. -/
def obsM (params : List ℚ) : ℤ := ratToInt (params.getD 2 0)

/-- The two sequential clamping `if`s of posterior.cpp lines 40-41, applied to
one element: `if (v < 0) v = 0; if (v >= MAX_TITRE) v = MAX_TITRE;`.
The second test reads the value already updated by the first. -/
def clampStep (M : ℤ) (v : ℚ) : ℚ :=
  let v1 := if v < 0 then 0 else v
  if v1 ≥ (M : ℚ) then (M : ℚ) else v1

/-- The probability computed at position `i` of the scoring loop
(posterior.cpp line 42): `obs_error(floor(y(i)), floor(data(i)), params(0),
params(1), MAX_TITRE)` with `y(i)` already clamped by the two preceding `if`s.
`floor` of a double followed by the implicit double-to-int conversion of the
`int` parameter is exactly `Int.floor`. -/
def siteProb (y data params : List ℚ) (i : ℕ) : ℚ :=
  obs_error ⌊clampStep (obsM params) (y.getD i 0)⌋ ⌊data.getD i 0⌋
    (obsS params) (obsEA params) (obsM params)

/-- Result of one `obs_likelihood` call.  Rcpp `NumericVector` arguments are
views on the caller's buffers, so the in-place clamping of `y` is visible to
the caller; the function never writes `data` or `params`, which are returned
unchanged. -/
structure ObsResult where
  yOut : List ℚ
  dataOut : List ℚ
  paramsOut : List ℚ
  ln : FVal
  deriving Repr

/-- Embedding of `obs_likelihood` (posterior.cpp lines 36-45).  The C++ loop
clamps `y(i)` in place and immediately scores position `i`; since positions
are independent, the final `y` is the element-wise clamp and the accumulator
is a left fold (starting from `ln = 0`) of the per-position log-probabilities,
in position order. -/
def obs_likelihood (L : ℚ → ℚ) (y data params : List ℚ) : ObsResult :=
  { yOut := y.map (clampStep (obsM params))
    dataOut := data
    paramsOut := params
    ln := ((List.range y.length).map (fun i => flog L (siteProb y data params i))).foldl
      FVal.add (.fin 0) }

/-- All inputs to `posterior_func_group_cpp` (posterior.cpp lines 76-84), in
source order; doubles as `ℚ`, C `int`s as `ℤ`.  `measured_strains` appears in
the C++ signature but is never read by the body; it is kept for fidelity. -/
structure PInput where
  pars : List ℚ
  times : List ℚ
  groups : List ℤ
  individuals : List ℤ
  strains : List ℤ
  exposure_types : List ℤ
  exposure_strains : List ℤ
  measured_strains : List ℤ
  exposure_orders : List ℤ
  exposure_primes : List ℤ
  exposure_indices : List ℤ
  cr_inds : List ℤ
  par_type_ind : List ℤ
  order_indices : List ℤ
  exposure_i_lengths : List ℤ
  par_lengths : List ℤ
  cr_lengths : List ℤ
  data : List (List ℚ)

/-- Unchecked `IntegerVector` indexing with an `int` index (Rcpp `operator[]`
performs no bounds check; well-formed inputs never leave the list). -/
def getZ (l : List ℤ) (i : ℤ) : ℤ := l.getD i.toNat 0

/-- Unchecked `NumericVector` indexing with an `int` index. -/
def getQ (l : List ℚ) (i : ℤ) : ℚ := l.getD i.toNat 0

/-- Rcpp `Range(A, B)`: the inclusive index sequence `A, A+1, ..., B`
(empty when `B < A`). -/
def rangeList (A B : ℤ) : List ℤ :=
  (List.range (B + 1 - A).toNat).map (fun n => A + (n : ℤ))

/-- `tmp_exposures` for group-loop index `i` (posterior.cpp lines 102-104):
`A = exposure_i_lengths[i]; B = exposure_i_lengths[i+1] - 1;
tmp_exposures = exposure_indices[Range(A, B)]`. -/
def tmpExposures (inp : PInput) (i : ℕ) : List ℤ :=
  (rangeList (getZ inp.exposure_i_lengths (i : ℤ))
      (getZ inp.exposure_i_lengths ((i : ℤ) + 1) - 1)).map
    (fun r => getZ inp.exposure_indices r)

/-- Assembly of `fullPars` for one exposure row `e` of the parameter table
(posterior.cpp lines 117-139): the exposure type's kinetics block
`pars[par_type_ind[Range(A, B)]]` followed by `isPrimed`, the order modifier,
the cross-reactivity scalar and the infection time, in push_back order.
`strain` is the already 0-indexed measured strain (`strains[j] - 1`). -/
def assemblePars (inp : PInput) (strain : ℤ) (e : ℤ) : List ℚ :=
  let t_i := getQ inp.pars e
  let order := getZ inp.exposure_orders e - 1
  let exposure_strain := getZ inp.exposure_strains e - 1
  let md := getQ inp.pars (getZ inp.order_indices order)
  let isPrimed : ℚ := (getZ inp.exposure_primes e : ℚ)
  let cr := getQ inp.pars (getZ inp.cr_inds (getZ inp.cr_lengths strain + exposure_strain))
  let ty := getZ inp.exposure_types e - 1
  let A := getZ inp.par_lengths ty
  let B := getZ inp.par_lengths (ty + 1) - 1
  ((rangeList A B).map (fun r => getQ inp.pars (getZ inp.par_type_ind r))) ++
    [isPrimed, md, cr, t_i]

/-- The accumulation loop of posterior.cpp lines 145-147:
`for (ii < y.size()) results(index_model, ii) += y[ii]`.  Positions of the
row beyond `y`'s length are left untouched (a trajectory longer than the row
would be out-of-bounds in the C++ and is outside the caller contract). -/
def addVec (r y : List ℚ) : List ℚ :=
  (List.range r.length).map (fun ii => r.getD ii 0 + y.getD ii 0)

/-- The per-(group, strain) exposure loop (posterior.cpp lines 112-148):
starting from row `row0` and the loop-carried `fullPars` value `fp0`, each
exposure `e` of `tmp` assembles its `fullPars`, solves the trajectory with the
external solver `solver`, and adds it into the row.  Returns the final row and
the `fullPars` left behind by the last iteration. -/
def expLoop (solver : List ℚ → List ℚ → List ℚ) (inp : PInput) (strain : ℤ)
    (tmp : List ℤ) (row0 fp0 : List ℚ) : List ℚ × List ℚ :=
  tmp.foldl
    (fun acc e =>
      let fp := assemblePars inp strain e
      (addVec acc.1 (solver fp inp.times), fp))
    (row0, fp0)

/-- Evaluation state of the posterior run: the accumulator `ln`, the global
data-row cursor `index_data`, the loop-carried `fullPars`, and ghost
instrumentation (`contribs` records each scoring call's value, `rowsConsumed`
each scoring call's (group index, strain index, data row); neither feeds back
into the computation).  `diverged` records that the per-individual loop's
condition was still true when the observation fuel ran out — in the C++ that
loop never exits, so everything after a diverged point is unreachable. -/
structure St where
  ln : FVal
  index_data : ℕ
  fullPars : List ℚ
  contribs : List FVal
  rowsConsumed : List (ℕ × ℕ × ℕ)
  diverged : Bool

/-- The per-individual scoring loop (posterior.cpp lines 152-155):
`for (int jj = 0; j < individuals[i]; ++jj) { ln += obs_likelihood(
results(index_model,_), data(index_data,_), fullPars); index_data++; }`.
The condition compares the strain counter `j` with `individuals[i]`, neither
of which changes inside the loop, so `cond` is a constant.  Each iteration
passes a fresh copy of the results row and of the data row (Rcpp copies a
matrix `Row` when converting it to a `NumericVector` argument), so the
in-place clamping inside `obs_likelihood` touches only the copies. -/
def scoreSteps (L : ℚ → ℚ) (dmat : List (List ℚ)) (i j : ℕ) (row : List ℚ)
    (cond : Bool) : ℕ → St → St
  | 0, st => if cond then { st with diverged := true } else st
  | fuel + 1, st =>
    if cond then
      let c := (obs_likelihood L row (dmat.getD st.index_data []) st.fullPars).ln
      scoreSteps L dmat i j row cond fuel
        { st with
          ln := st.ln.add c
          index_data := st.index_data + 1
          contribs := st.contribs ++ [c]
          rowsConsumed := st.rowsConsumed ++ [(i, j, st.index_data)] }
    else st

/-- One iteration of the measured-strain loop (posterior.cpp lines 107-157)
for group-loop index `i` and strain-loop index `j`: zero-initialize the
(group, strain) results row, run the exposure loop, then the scoring loop.
A state that already diverged is returned unchanged (the C++ never gets
there). -/
def cellStep (L : ℚ → ℚ) (solver : List ℚ → List ℚ → List ℚ) (inp : PInput)
    (fuel : ℕ) (i j : ℕ) (st : St) : St :=
  if st.diverged then st
  else
    let strain := inp.strains.getD j 0 - 1
    let pr := expLoop solver inp strain (tmpExposures inp i)
      (List.replicate inp.times.length 0) st.fullPars
    scoreSteps L inp.data i j pr.1
      (decide ((j : ℤ) < inp.individuals.getD i 0)) fuel
      { st with fullPars := pr.2 }

/-- Initial evaluation state (posterior.cpp lines 89-95): `ln = 0`, both
cursors at 0, `fullPars` default-constructed empty, nothing consumed yet. -/
def initSt : St :=
  { ln := .fin 0, index_data := 0, fullPars := [], contribs := [],
    rowsConsumed := [], diverged := false }

/-- Embedding of `posterior_func_group_cpp` (posterior.cpp lines 76-159):
the group loop around the measured-strain loop, starting from `ln = 0`,
`index_data = 0` and an empty `fullPars`.  `fuel` bounds how many iterations
of the per-individual scoring loop are observed; `model_trajectory_cpp`
(declared in model.h, outside this translation unit) is the external solver
parameter, and `L` abstracts the finite values of `log`. -/
def posterior_func_group_cpp (L : ℚ → ℚ) (solver : List ℚ → List ℚ → List ℚ)
    (inp : PInput) (fuel : ℕ) : St :=
  (List.range inp.groups.length).foldl
    (fun st i =>
      (List.range inp.strains.length).foldl (fun st j => cellStep L solver inp fuel i j st) st)
    initSt

/-- Concrete stand-in for the abstract finite-log values: every positive
probability is sent to 0.  Only the IEEE case structure matters. -/
def L0 : ℚ → ℚ := fun _ => 0

/-- Stub trajectory solver returning the constant value 4 at every time point
(the spec's §8 stub-solver convention for exercising the bookkeeping). -/
def solver0 : List ℚ → List ℚ → List ℚ := fun _ ts => ts.map (fun _ => 4)

/-- Concrete input with 2 groups, `individuals = [2, 1]`, 1 measured strain,
one exposure per group, one time point, and 3 data rows — the layout named by
claim C1. -/
def inpC1 : PInput :=
  { pars := [0, 0, 1, 1, 1/2]
    times := [0]
    groups := [1, 2]
    individuals := [2, 1]
    strains := [1]
    exposure_types := [1, 1]
    exposure_strains := [1, 1]
    measured_strains := [1, 1]
    exposure_orders := [1, 1]
    exposure_primes := [0, 0]
    exposure_indices := [0, 1]
    cr_inds := [3]
    par_type_ind := [4]
    order_indices := [2]
    exposure_i_lengths := [0, 1, 2]
    par_lengths := [0, 1]
    cr_lengths := [0]
    data := [[1], [1], [1]] }

/-- Minimal concrete input: 1 group with 1 individual, 1 strain, 1 exposure,
1 time point, 1 data row. -/
def inpC2 : PInput :=
  { pars := [0, 0, 1, 1, 1/2]
    times := [0]
    groups := [1]
    individuals := [1]
    strains := [1]
    exposure_types := [1]
    exposure_strains := [1]
    measured_strains := [1]
    exposure_orders := [1]
    exposure_primes := [0]
    exposure_indices := [0]
    cr_inds := [3]
    par_type_ind := [4]
    order_indices := [2]
    exposure_i_lengths := [0, 1]
    par_lengths := [0, 1]
    cr_lengths := [0]
    data := [[1]] }

/-- One group, one strain, two exposures of different types.  Parameter rows:
0 and 1 are the two infection times, row 2 the order modifier, row 3 the
cross-reactivity scalar, rows 4-6 the type-1 kinetics block `[1/2, 1/4, 8]`,
rows 7-9 the type-2 kinetics block `[2, 0, 8]`.  The exposure block processes
the type-1 exposure first and the type-2 exposure last. -/
def inpC3A : PInput :=
  { pars := [0, 0, 1, 1, 1/2, 1/4, 8, 2, 0, 8]
    times := [0]
    groups := [1]
    individuals := [1]
    strains := [1]
    exposure_types := [1, 2]
    exposure_strains := [1, 1]
    measured_strains := [1, 1]
    exposure_orders := [1, 1]
    exposure_primes := [0, 0]
    exposure_indices := [0, 1]
    cr_inds := [3]
    par_type_ind := [4, 5, 6, 7, 8, 9]
    order_indices := [2]
    exposure_i_lengths := [0, 2]
    par_lengths := [0, 3, 6]
    cr_lengths := [0]
    data := [[4]] }

/-- Identical to `inpC3A` except that the group's exposure block lists the
same two exposures in the opposite order, so the type-1 exposure is the one
assembled last. -/
def inpC3B : PInput :=
  { inpC3A with exposure_indices := [1, 0] }

/-- One unfolding of a live scoring-loop iteration, definitionally. -/
theorem scoreSteps_succ (L : ℚ → ℚ) (dmat : List (List ℚ)) (i j : ℕ)
    (row : List ℚ) (n : ℕ) (st : St) :
    scoreSteps L dmat i j row true (n + 1) st
      = scoreSteps L dmat i j row true n
          { st with
            ln := st.ln.add ((obs_likelihood L row (dmat.getD st.index_data []) st.fullPars).ln)
            index_data := st.index_data + 1
            contribs :=
              st.contribs ++ [(obs_likelihood L row (dmat.getD st.index_data []) st.fullPars).ln]
            rowsConsumed := st.rowsConsumed ++ [(i, j, st.index_data)] } := rfl

theorem scoreSteps_true_diverged (L : ℚ → ℚ) (dmat : List (List ℚ)) (i j : ℕ)
    (row : List ℚ) : ∀ (fuel : ℕ) (st : St),
    (scoreSteps L dmat i j row true fuel st).diverged = true := by
  intro fuel
  induction fuel with
  | zero => intro st; rfl
  | succ n ih => intro st; rw [scoreSteps_succ]; exact ih _

theorem scoreSteps_true_contribs (L : ℚ → ℚ) (dmat : List (List ℚ)) (i j : ℕ)
    (row : List ℚ) : ∀ (fuel : ℕ) (st : St),
    (scoreSteps L dmat i j row true fuel st).contribs
      = st.contribs ++ (List.range fuel).map
          (fun t => (obs_likelihood L row (dmat.getD (st.index_data + t) []) st.fullPars).ln) := by
  intro fuel
  induction fuel with
  | zero => intro st; simp [scoreSteps]
  | succ n ih =>
    intro st
    rw [scoreSteps_succ, ih]
    dsimp only
    rw [List.append_assoc]
    congr 1
    rw [List.range_succ_eq_map, List.map_cons, Nat.add_zero, List.map_map,
      List.singleton_append]
    congr 1
    apply List.map_congr_left
    intro t _
    simp only [Function.comp_apply]
    have h : st.index_data + 1 + t = st.index_data + Nat.succ t := by omega
    rw [h]

theorem cellStep_preserve (L : ℚ → ℚ) (solver : List ℚ → List ℚ → List ℚ)
    (inp : PInput) (fuel i j : ℕ) (st : St) (h : st.diverged = true) :
    cellStep L solver inp fuel i j st = st := by
  simp [cellStep, h]

theorem foldl_preserve {α : Type} (f : St → α → St)
    (h : ∀ (st : St) (x : α), st.diverged = true → f st x = st) :
    ∀ (l : List α) (st : St), st.diverged = true → l.foldl f st = st := by
  intro l
  induction l with
  | nil => intro st _; rfl
  | cons x xs ih => intro st hst; rw [List.foldl_cons, h st x hst]; exact ih st hst

/-- When there is at least one group, one measured strain, and the first group
has a positive individual count, the condition `j < individuals[i]` of the
per-individual loop is true at the first (group, strain) cell with `j = 0`
and never changes, so the whole evaluation reduces to this first cell's
scoring loop (which in the C++ never exits). -/
theorem runPost_first_cell (L : ℚ → ℚ) (solver : List ℚ → List ℚ → List ℚ)
    (inp : PInput) (fuel : ℕ) (hg : 0 < inp.groups.length)
    (hs : 0 < inp.strains.length) (hi : 0 < inp.individuals.getD 0 0) :
    posterior_func_group_cpp L solver inp fuel
      = scoreSteps L inp.data 0 0
          (expLoop solver inp (inp.strains.getD 0 0 - 1) (tmpExposures inp 0)
            (List.replicate inp.times.length 0) []).1 true fuel
          { initSt with
            fullPars := (expLoop solver inp (inp.strains.getD 0 0 - 1) (tmpExposures inp 0)
              (List.replicate inp.times.length 0) []).2 } := by
  obtain ⟨gn, hgn⟩ : ∃ n, inp.groups.length = n + 1 :=
    ⟨inp.groups.length - 1, (Nat.succ_pred_eq_of_pos hg).symm⟩
  obtain ⟨sn, hsn⟩ : ∃ n, inp.strains.length = n + 1 :=
    ⟨inp.strains.length - 1, (Nat.succ_pred_eq_of_pos hs).symm⟩
  have hcell : cellStep L solver inp fuel 0 0 initSt
      = scoreSteps L inp.data 0 0
          (expLoop solver inp (inp.strains.getD 0 0 - 1) (tmpExposures inp 0)
            (List.replicate inp.times.length 0) []).1
          (decide (((0 : ℕ) : ℤ) < inp.individuals.getD 0 0)) fuel
          { initSt with
            fullPars := (expLoop solver inp (inp.strains.getD 0 0 - 1) (tmpExposures inp 0)
              (List.replicate inp.times.length 0) []).2 } := rfl
  rw [show decide (((0 : ℕ) : ℤ) < inp.individuals.getD 0 0) = true from by
    simpa using hi] at hcell
  have h1 : posterior_func_group_cpp L solver inp fuel
      = (List.range inp.groups.length).foldl
          (fun st i => (List.range inp.strains.length).foldl
            (fun st j => cellStep L solver inp fuel i j st) st) initSt := rfl
  rw [h1, hgn, hsn,
    show List.range (gn + 1) = 0 :: (List.range gn).map Nat.succ from
      List.range_succ_eq_map gn,
    List.foldl_cons]
  rw [show List.range (sn + 1) = 0 :: (List.range sn).map Nat.succ from
      List.range_succ_eq_map sn,
    List.foldl_cons]
  rw [hcell]
  have hdiv : (scoreSteps L inp.data 0 0
      (expLoop solver inp (inp.strains.getD 0 0 - 1) (tmpExposures inp 0)
        (List.replicate inp.times.length 0) []).1 true fuel
      { initSt with
        fullPars := (expLoop solver inp (inp.strains.getD 0 0 - 1) (tmpExposures inp 0)
          (List.replicate inp.times.length 0) []).2 }).diverged = true :=
    scoreSteps_true_diverged _ _ _ _ _ _ _
  rw [foldl_preserve _ (fun st j h => cellStep_preserve L solver inp fuel 0 j st h) _ _ hdiv]
  rw [foldl_preserve _ (fun st i h => foldl_preserve _
    (fun st j h2 => cellStep_preserve L solver inp fuel i j st h2) _ st h) _ _ hdiv]

/-- The scoring contributions observed with `fuel` iterations of the first
cell's per-individual loop: each one is `obs_likelihood` applied to the
accumulated results row, the next data row (cursor starting at 0), and the
`fullPars` left behind by the last-assembled exposure. -/
theorem runPost_contribs (L : ℚ → ℚ) (solver : List ℚ → List ℚ → List ℚ)
    (inp : PInput) (fuel : ℕ) (hg : 0 < inp.groups.length)
    (hs : 0 < inp.strains.length) (hi : 0 < inp.individuals.getD 0 0) :
    (posterior_func_group_cpp L solver inp fuel).contribs
      = (List.range fuel).map (fun t =>
          (obs_likelihood L
            (expLoop solver inp (inp.strains.getD 0 0 - 1) (tmpExposures inp 0)
              (List.replicate inp.times.length 0) []).1
            (inp.data.getD t [])
            (expLoop solver inp (inp.strains.getD 0 0 - 1) (tmpExposures inp 0)
              (List.replicate inp.times.length 0) []).2).ln) := by
  rw [runPost_first_cell L solver inp fuel hg hs hi, scoreSteps_true_contribs]
  simp [initSt]

/-- Whenever there is at least one group and one strain and the first group
has at least one individual, no amount of fuel reaches the end of the
per-individual scoring loop: the embedded run always ends diverged. -/
theorem runPost_diverged (L : ℚ → ℚ) (solver : List ℚ → List ℚ → List ℚ)
    (inp : PInput) (fuel : ℕ) (hg : 0 < inp.groups.length)
    (hs : 0 < inp.strains.length) (hi : 0 < inp.individuals.getD 0 0) :
    (posterior_func_group_cpp L solver inp fuel).diverged = true := by
  rw [runPost_first_cell L solver inp fuel hg hs hi]
  exact scoreSteps_true_diverged _ _ _ _ _ _ _

theorem FVal.add_isFin (a b : FVal) : (a.add b).isFin = (a.isFin && b.isFin) := by
  cases a <;> cases b <;> rfl

theorem FVal.notFin_cases (v : FVal) (h : v.isFin = false) :
    v = .neginf ∨ v = .nan := by
  cases v with
  | fin x => exact absurd h (by simp [FVal.isFin])
  | neginf => exact Or.inl rfl
  | nan => exact Or.inr rfl

theorem foldl_add_fin (l : List ℚ) : ∀ c : ℚ,
    ((l.map FVal.fin).foldl FVal.add (.fin c)) = .fin (c + l.sum) := by
  induction l with
  | nil => intro c; simp
  | cons x xs ih =>
    intro c
    rw [List.map_cons, List.foldl_cons, show FVal.add (.fin c) (.fin x) = .fin (c + x) from rfl,
      ih (c + x), List.sum_cons]
    rw [add_assoc]

theorem foldl_add_acc_notFin (l : List FVal) : ∀ acc : FVal, acc.isFin = false →
    (l.foldl FVal.add acc).isFin = false := by
  induction l with
  | nil => intro acc h; exact h
  | cons v vs ih =>
    intro acc h
    rw [List.foldl_cons]
    exact ih _ (by rw [FVal.add_isFin, h, Bool.false_and])

theorem foldl_add_notFin (l : List FVal) (v : FVal) (hv : v ∈ l)
    (h : v.isFin = false) : ∀ acc : FVal, (l.foldl FVal.add acc).isFin = false := by
  induction l with
  | nil => exact absurd hv (List.not_mem_nil v)
  | cons w ws ih =>
    intro acc
    rcases List.mem_cons.mp hv with h1 | h1
    · rw [List.foldl_cons]
      exact foldl_add_acc_notFin ws _ (by rw [FVal.add_isFin, ← h1, h, Bool.and_false])
    · rw [List.foldl_cons]
      exact ih h1 _

theorem flog_nonpos_notFin (L : ℚ → ℚ) (x : ℚ) (h : x ≤ 0) :
    (flog L x).isFin = false := by
  unfold flog
  split_ifs with h1 h2
  · exact absurd h1 (by linarith)
  · rfl
  · rfl

theorem range_map_getD {β : Type} [Inhabited β] (n : ℕ) (f : ℕ → β) (d : β) (ii : ℕ)
    (h : ii < n) : (((List.range n).map f).getD ii d) = f ii := by
  rw [List.getD_eq_getElem?_getD, List.getElem?_map, List.getElem?_range h]
  rfl

theorem getD_map_lt (y : List ℚ) (f : ℚ → ℚ) (i : ℕ) (h : i < y.length) :
    (y.map f).getD i 0 = f (y.getD i 0) := by
  rw [List.getD_eq_getElem?_getD, List.getElem?_map,
    List.getElem?_eq_getElem h, List.getD_eq_getElem?_getD, List.getElem?_eq_getElem h]
  rfl

theorem clampStep_neg (M : ℤ) (v : ℚ) (hM : 0 ≤ M) (h : v < 0) :
    clampStep M v = 0 := by
  have hMQ : (0 : ℚ) ≤ (M : ℚ) := by exact_mod_cast hM
  simp only [clampStep]
  split_ifs <;> first | rfl | linarith

theorem clampStep_ge (M : ℤ) (v : ℚ) (h : (M : ℚ) ≤ v) :
    clampStep M v = (M : ℚ) := by
  simp only [clampStep]
  split_ifs <;> first | rfl | (exfalso; linarith)

theorem clampStep_id (M : ℤ) (v : ℚ) (h0 : 0 ≤ v) (h1 : v < (M : ℚ)) :
    clampStep M v = v := by
  simp only [clampStep]
  split_ifs <;> first | rfl | (exfalso; linarith)

theorem clampStep_idem (M : ℤ) (hM : 0 ≤ M) (v : ℚ) :
    clampStep M (clampStep M v) = clampStep M v := by
  have hMQ : (0 : ℚ) ≤ (M : ℚ) := by exact_mod_cast hM
  by_cases h : v < 0
  · rw [clampStep_neg M v hM h]
    rcases eq_or_lt_of_le hMQ with hM0 | hM0
    · rw [clampStep_ge M 0 hM0.symm.le, ← hM0]
    · exact clampStep_id M 0 le_rfl hM0
  · by_cases h2 : (M : ℚ) ≤ v
    · rw [clampStep_ge M v h2]; exact clampStep_ge M _ le_rfl
    · rw [clampStep_id M v (not_lt.mp h) (not_le.mp h2)]
      exact clampStep_id M v (not_lt.mp h) (not_le.mp h2)

theorem addVec_length (r y : List ℚ) : (addVec r y).length = r.length := by
  simp [addVec]

theorem addVec_getD (r y : List ℚ) (ii : ℕ) (h : ii < r.length) :
    (addVec r y).getD ii 0 = r.getD ii 0 + y.getD ii 0 := by
  unfold addVec
  exact range_map_getD r.length _ 0 ii h

theorem replicate_zero_getD (n ii : ℕ) : (List.replicate n (0 : ℚ)).getD ii 0 = 0 := by
  rw [List.getD_eq_getElem?_getD, List.getElem?_replicate]
  split_ifs <;> rfl

theorem expLoop_row (solver : List ℚ → List ℚ → List ℚ) (inp : PInput) (strain : ℤ) :
    ∀ (tmp : List ℤ) (row0 fp0 : List ℚ) (ii : ℕ), ii < row0.length →
      ((expLoop solver inp strain tmp row0 fp0).1).getD ii 0
        = row0.getD ii 0
          + (tmp.map (fun e => (solver (assemblePars inp strain e) inp.times).getD ii 0)).sum := by
  intro tmp
  induction tmp with
  | nil => intro row0 fp0 ii h; simp [expLoop]
  | cons e tmp ih =>
    intro row0 fp0 ii h
    rw [show expLoop solver inp strain (e :: tmp) row0 fp0
        = expLoop solver inp strain tmp
            (addVec row0 (solver (assemblePars inp strain e) inp.times))
            (assemblePars inp strain e) from rfl]
    rw [ih _ _ ii (by rw [addVec_length]; exact h), addVec_getD row0 _ ii h,
      List.map_cons, List.sum_cons]
    ring

/-- Pointwise decomposition of the kernel: every value is the uniform
residual plus a correction supported on `obs = actual` and on the two
adjacent bins.  Holds for all integer inputs. -/
theorem obs_error_decomp (a o : ℤ) (S EA : ℚ) (M : ℤ) :
    obs_error a o S EA M
      = (1 / ((M : ℚ) - 2)) * (1 - S - EA)
        + (if o = a then
            (if a = 0 ∨ a = M then
              S + EA / 2 - 2 * ((1 / ((M : ℚ) - 2)) * (1 - S - EA))
            else S - (1 / ((M : ℚ) - 2)) * (1 - S - EA))
          else 0)
        + (if o = a - 1 ∨ o = a + 1 then
            EA / 2 - (1 / ((M : ℚ) - 2)) * (1 - S - EA) else 0) := by
  unfold obs_error
  split_ifs <;> first
    | ring1
    | (exfalso; omega)

/-- Claim C4 (counterexample): with `S = EA = 0` and `MAX_TITRE = 3` — which
satisfy `0 ≤ S`, `0 ≤ EA`, `S + EA ≤ 1`, `MAX_TITRE ≥ 3` — the kernel value at
`believed = observed = 0` (both in `[0, MAX_TITRE]`) is `-1`, outside `[0,1]`. -/
theorem obs_error_boundary_negative :
    obs_error 0 0 0 0 3 = -1 ∧ obs_error 0 0 0 0 3 < 0 := by
  constructor <;> norm_num [obs_error]

/-- Claim C4 (amended): under the claim's hypotheses together with the extra
condition that the boundary-bin value is nonnegative — that is,
`(1/(MAX_TITRE−2))·(1−S−EA) ≤ S + EA/2` — `obs_error` returns a value in
`[0, 1]` for all titre pairs in range. -/
theorem obs_error_range_amended (S EA : ℚ) (M a o : ℤ) (hS : 0 ≤ S) (hEA : 0 ≤ EA)
    (hSE : S + EA ≤ 1) (hM : 3 ≤ M) (ha : 0 ≤ a ∧ a ≤ M) (ho : 0 ≤ o ∧ o ≤ M)
    (hB : (1 / ((M : ℚ) - 2)) * (1 - S - EA) ≤ S + EA / 2) :
    0 ≤ obs_error a o S EA M ∧ obs_error a o S EA M ≤ 1 := by
  have hMQ : (3 : ℚ) ≤ (M : ℚ) := by exact_mod_cast hM
  have hd : (0 : ℚ) < (M : ℚ) - 2 := by linarith
  have hr0 : 0 ≤ (1 / ((M : ℚ) - 2)) * (1 - S - EA) :=
    mul_nonneg (by positivity) (by linarith)
  have hc : 1 / ((M : ℚ) - 2) ≤ 1 := by
    rw [div_le_one hd]; linarith
  have hr1 : (1 / ((M : ℚ) - 2)) * (1 - S - EA) ≤ 1 - S - EA :=
    mul_le_of_le_one_left (by linarith) hc
  unfold obs_error
  split_ifs <;> constructor <;> linarith

/-- Claim C4 (witness): the amended bounds at `S = 1/2`, `EA = 1/4`,
`MAX_TITRE = 8`, `believed = 3`, `observed = 5`. -/
theorem obs_error_range_amended_witness :
    0 ≤ obs_error 3 5 (1/2) (1/4) 8 ∧ obs_error 3 5 (1/2) (1/4) 8 ≤ 1 :=
  obs_error_range_amended (1/2) (1/4) 8 3 5 (by norm_num) (by norm_num) (by norm_num)
    (by norm_num) (by norm_num) (by norm_num) (by norm_num)

/-- Claim C5: for `MAX_TITRE ≥ 3` and any fixed `actual` in `[0, MAX_TITRE]`,
the kernel values summed over all `observed` in `[0, MAX_TITRE]` give exactly 1,
in exact rational arithmetic, for every `S` and `EA`. -/
theorem obs_error_rowsum_one (S EA : ℚ) (M a : ℤ) (hM : 3 ≤ M) (ha0 : 0 ≤ a)
    (haM : a ≤ M) :
    ∑ o in Finset.Icc (0 : ℤ) M, obs_error a o S EA M = 1 := by
  have hMQ : (3 : ℚ) ≤ (M : ℚ) := by exact_mod_cast hM
  have hne : ((M : ℚ) - 2) ≠ 0 := by intro h; linarith [h]
  have hsplit : ∀ o : ℤ, (if o = a - 1 ∨ o = a + 1 then
      EA / 2 - (1 / ((M : ℚ) - 2)) * (1 - S - EA) else 0)
      = (if o = a - 1 then EA / 2 - (1 / ((M : ℚ) - 2)) * (1 - S - EA) else 0)
        + (if o = a + 1 then EA / 2 - (1 / ((M : ℚ) - 2)) * (1 - S - EA) else 0) := by
    intro o
    have hne2 : a - 1 ≠ a + 1 := by omega
    by_cases h1 : o = a - 1
    · subst h1
      rw [if_pos (Or.inl rfl), if_pos rfl, if_neg hne2]
      ring
    · by_cases h2 : o = a + 1
      · subst h2
        rw [if_pos (Or.inr rfl), if_neg (by omega), if_pos rfl]
        ring
      · rw [if_neg (by tauto), if_neg h1, if_neg h2]
        ring
  rw [Finset.sum_congr rfl (fun o _ => obs_error_decomp a o S EA M)]
  simp only [Finset.sum_add_distrib]
  rw [Finset.sum_congr rfl (fun o _ => hsplit o), Finset.sum_add_distrib]
  rw [Finset.sum_const, Finset.sum_ite_eq' (Finset.Icc (0 : ℤ) M) a,
    Finset.sum_ite_eq' (Finset.Icc (0 : ℤ) M) (a - 1),
    Finset.sum_ite_eq' (Finset.Icc (0 : ℤ) M) (a + 1)]
  rw [if_pos (Finset.mem_Icc.mpr ⟨ha0, haM⟩)]
  rw [Int.card_Icc, nsmul_eq_mul]
  have hcard : (((M + 1 - 0 : ℤ).toNat : ℕ) : ℚ) = (M : ℚ) + 1 := by
    have h1 : ((M + 1 - 0 : ℤ).toNat : ℤ) = M + 1 - 0 := Int.toNat_of_nonneg (by omega)
    have h2 : (((M + 1 - 0 : ℤ).toNat : ℕ) : ℚ) = ((M + 1 - 0 : ℤ) : ℚ) := by
      exact_mod_cast congrArg (fun z : ℤ => (z : ℚ)) h1
    rw [h2]; push_cast; ring
  rw [hcard]
  by_cases h0 : a = 0
  · subst h0
    rw [if_pos (Or.inl rfl), if_neg (by rw [Finset.mem_Icc]; omega),
      if_pos (Finset.mem_Icc.mpr ⟨by omega, by omega⟩)]
    field_simp
    ring
  · by_cases hM2 : a = M
    · subst hM2
      rw [if_pos (Or.inr rfl), if_pos (Finset.mem_Icc.mpr ⟨by omega, by omega⟩),
        if_neg (by rw [Finset.mem_Icc]; omega)]
      field_simp
      ring
    · rw [if_neg (not_or.mpr ⟨h0, hM2⟩),
        if_pos (Finset.mem_Icc.mpr ⟨by omega, by omega⟩),
        if_pos (Finset.mem_Icc.mpr ⟨by omega, by omega⟩)]
      field_simp
      ring

/-- Claim C5 (witness): the normalization law at `S = 1/3`, `EA = 1/3`,
`MAX_TITRE = 3`, `actual = 1`. -/
theorem obs_error_rowsum_one_witness :
    ∑ o in Finset.Icc (0 : ℤ) 3, obs_error 1 o (1/3) (1/3) 3 = 1 :=
  obs_error_rowsum_one (1/3) (1/3) 3 1 (by norm_num) (by norm_num) (by norm_num)

/-- Claim C6: the code's kernel agrees with the spec's piecewise description
at every input (boundary clause first, then exact match, then one-unit
adjacency, then the uniform residual), and in particular the two boundary
bins `(0,0)` and `(MAX_TITRE, MAX_TITRE)` always receive the same value. -/
theorem obs_error_matches_spec :
    (∀ (a o : ℤ) (S EA : ℚ) (M : ℤ), obs_error a o S EA M = obs_error_spec a o S EA M)
    ∧ ∀ (S EA : ℚ) (M : ℤ), obs_error 0 0 S EA M = obs_error M M S EA M := by
  constructor
  · intro a o S EA M
    unfold obs_error obs_error_spec
    split_ifs <;> first
      | rfl
      | ring1
      | (exfalso; omega)
  · intro S EA M
    unfold obs_error
    split_ifs <;> first
      | rfl
      | ring1
      | (exfalso; omega)

/-- Claim C7: `obs_likelihood` is the exact fold, in position order, of the
per-position log of `obs_error` at the clamped-and-floored believed value and
the floored observed value.  When every per-position probability is positive
the result is the finite exact sum of the logs, with no hidden normalization;
as soon as some position's probability is zero or negative the returned value
is non-finite (`-inf` or NaN) — it is returned to the caller, not raised as an
error and not clamped. -/
theorem obs_likelihood_log_sum (L : ℚ → ℚ) (y data params : List ℚ) :
    ((∀ i, i < y.length → 0 < siteProb y data params i) →
        (obs_likelihood L y data params).ln
          = .fin (((List.range y.length).map (fun i => L (siteProb y data params i))).sum))
      ∧ ((∃ i, i < y.length ∧ siteProb y data params i ≤ 0) →
        (obs_likelihood L y data params).ln = .neginf
          ∨ (obs_likelihood L y data params).ln = .nan) := by
  have hdef : (obs_likelihood L y data params).ln
      = ((List.range y.length).map (fun i => flog L (siteProb y data params i))).foldl
          FVal.add (.fin 0) := rfl
  constructor
  · intro hpos
    have hm : (List.range y.length).map (fun i => flog L (siteProb y data params i))
        = ((List.range y.length).map (fun i => L (siteProb y data params i))).map
            FVal.fin := by
      rw [List.map_map]
      apply List.map_congr_left
      intro i hi
      have h := hpos i (List.mem_range.mp hi)
      simp only [Function.comp_apply, flog]
      rw [if_pos h]
    rw [hdef, hm, foldl_add_fin, zero_add]
  · rintro ⟨i, hi, hle⟩
    have hnf : ((obs_likelihood L y data params).ln).isFin = false := by
      rw [hdef]
      exact foldl_add_notFin _ (flog L (siteProb y data params i))
        (List.mem_map_of_mem (fun i => flog L (siteProb y data params i))
          (List.mem_range.mpr hi))
        (flog_nonpos_notFin L _ hle) _
    exact FVal.notFin_cases _ hnf

/-- Claim C7 (witness): with `(S, EA, MAX_TITRE) = (1/2, 1/4, 8)` and a
matching pair the result is the finite sum of logs; with `S = 2` (so the
residual bin is negative) at a far pair the result is `-inf` or NaN. -/
theorem obs_likelihood_log_sum_witness :
    ((obs_likelihood L0 [1] [1] [1/2, 1/4, 8]).ln
        = .fin (((List.range ([1] : List ℚ).length).map
            (fun i => L0 (siteProb [1] [1] [1/2, 1/4, 8] i))).sum))
    ∧ ((obs_likelihood L0 [8] [4] [2, 0, 8]).ln = .neginf
        ∨ (obs_likelihood L0 [8] [4] [2, 0, 8]).ln = .nan) := by
  constructor
  · refine (obs_likelihood_log_sum L0 [1] [1] [1/2, 1/4, 8]).1 ?_
    intro i hi
    have hz : i = 0 := by simpa using hi
    subst hz
    norm_num [siteProb, clampStep, obs_error, obsS, obsEA, obsM, ratToInt, List.getD]
  · refine (obs_likelihood_log_sum L0 [8] [4] [2, 0, 8]).2 ⟨0, by norm_num, ?_⟩
    norm_num [siteProb, clampStep, obs_error, obsS, obsEA, obsM, ratToInt, List.getD]

/-- Claim C8: in `obs_likelihood` every believed value is clamped before
scoring — below 0 it becomes 0, at or above MAX_TITRE it becomes MAX_TITRE —
and both values are then floored inside the per-position probability, so
replacing the believed vector by its clamped image leaves the returned
log-likelihood unchanged (the -3 versus 0 instance is the witness). -/
theorem obs_likelihood_clamps (L : ℚ → ℚ) (y data params : List ℚ)
    (hM : 0 ≤ obsM params) :
    (∀ v : ℚ, v < 0 → clampStep (obsM params) v = 0) ∧
    (∀ v : ℚ, (obsM params : ℚ) ≤ v → clampStep (obsM params) v = (obsM params : ℚ)) ∧
    (obs_likelihood L y data params).ln
      = (obs_likelihood L (y.map (clampStep (obsM params))) data params).ln := by
  refine ⟨fun v hv => clampStep_neg _ v hM hv, fun v hv => clampStep_ge _ v hv, ?_⟩
  have h1 : (obs_likelihood L y data params).ln
      = ((List.range y.length).map (fun i => flog L (siteProb y data params i))).foldl
          FVal.add (.fin 0) := rfl
  have h2 : (obs_likelihood L (y.map (clampStep (obsM params))) data params).ln
      = ((List.range (y.map (clampStep (obsM params))).length).map
          (fun i => flog L (siteProb (y.map (clampStep (obsM params))) data params i))).foldl
          FVal.add (.fin 0) := rfl
  rw [h1, h2, List.length_map]
  congr 1
  apply List.map_congr_left
  intro i hi
  have hilt := List.mem_range.mp hi
  have hsite : siteProb (y.map (clampStep (obsM params))) data params i
      = siteProb y data params i := by
    unfold siteProb
    rw [getD_map_lt y _ i hilt, clampStep_idem _ hM]
  rw [hsite]

/-- Claim C8 (witness): with `MAX_TITRE = 5`, a believed value of -3 scores
identically to a believed value of 0. -/
theorem obs_likelihood_clamps_witness :
    (0 : ℤ) ≤ obsM [1/2, 1/4, 5] ∧
    (obs_likelihood L0 [-3] [4] [1/2, 1/4, 5]).ln
      = (obs_likelihood L0 [0] [4] [1/2, 1/4, 5]).ln := by
  have hM : (0 : ℤ) ≤ obsM [1/2, 1/4, 5] := by norm_num [obsM, ratToInt]
  have h := (obs_likelihood_clamps L0 [-3] [4] [1/2, 1/4, 5] hM).2.2
  rw [show ([(-3 : ℚ)].map (clampStep (obsM [1/2, 1/4, 5]))) = [0] from by
    norm_num [clampStep, obsM, ratToInt]] at h
  exact ⟨hM, h⟩

/-- Claim C10: `obs_likelihood` clamps its believed-titre vector in place —
after the call an element that was below 0 holds 0, an element at or above
MAX_TITRE holds MAX_TITRE, and all other elements are unchanged — while the
observed-data vector and the parameter vector come back unchanged. -/
theorem obs_likelihood_frame (L : ℚ → ℚ) (y data params : List ℚ)
    (hM : 0 ≤ obsM params) :
    (obs_likelihood L y data params).dataOut = data ∧
    (obs_likelihood L y data params).paramsOut = params ∧
    (obs_likelihood L y data params).yOut.length = y.length ∧
    ∀ i, i < y.length →
      (y.getD i 0 < 0 → (obs_likelihood L y data params).yOut.getD i 0 = 0) ∧
      ((obsM params : ℚ) ≤ y.getD i 0 →
        (obs_likelihood L y data params).yOut.getD i 0 = (obsM params : ℚ)) ∧
      (0 ≤ y.getD i 0 → y.getD i 0 < (obsM params : ℚ) →
        (obs_likelihood L y data params).yOut.getD i 0 = y.getD i 0) := by
  refine ⟨rfl, rfl, List.length_map y _, ?_⟩
  intro i hi
  have hy : (obs_likelihood L y data params).yOut.getD i 0
      = clampStep (obsM params) (y.getD i 0) := getD_map_lt y _ i hi
  refine ⟨fun h => ?_, fun h => ?_, fun h0 h1 => ?_⟩
  · rw [hy]; exact clampStep_neg _ _ hM h
  · rw [hy]; exact clampStep_ge _ _ h
  · rw [hy]; exact clampStep_id _ _ h0 h1

/-- Claim C10 (witness): with `MAX_TITRE = 5` and believed vector
`[-3, 9, 2]`, the vector afterwards holds `[0, 5, 2]` and the data and
parameter vectors are untouched. -/
theorem obs_likelihood_frame_witness :
    (obs_likelihood L0 [-3, 9, 2] [0, 0, 0] [1/2, 1/4, 5]).yOut.getD 0 0 = 0 ∧
    (obs_likelihood L0 [-3, 9, 2] [0, 0, 0] [1/2, 1/4, 5]).yOut.getD 1 0
      = (obsM [1/2, 1/4, 5] : ℚ) ∧
    (obs_likelihood L0 [-3, 9, 2] [0, 0, 0] [1/2, 1/4, 5]).yOut.getD 2 0 = 2 ∧
    (obs_likelihood L0 [-3, 9, 2] [0, 0, 0] [1/2, 1/4, 5]).dataOut = [0, 0, 0] ∧
    (obs_likelihood L0 [-3, 9, 2] [0, 0, 0] [1/2, 1/4, 5]).paramsOut
      = [1/2, 1/4, 5] := by
  have hM : (0 : ℤ) ≤ obsM [1/2, 1/4, 5] := by norm_num [obsM, ratToInt]
  have h := obs_likelihood_frame L0 [-3, 9, 2] [0, 0, 0] [1/2, 1/4, 5] hM
  refine ⟨?_, ?_, ?_, h.1, h.2.1⟩
  · exact (h.2.2.2 0 (by norm_num)).1 (by norm_num [List.getD])
  · exact (h.2.2.2 1 (by norm_num)).2.1 (by norm_num [obsM, ratToInt, List.getD])
  · have h3 := (h.2.2.2 2 (by norm_num)).2.2 (by norm_num [List.getD])
      (by norm_num [obsM, ratToInt, List.getD])
    simpa [List.getD] using h3

/-- Claim C9: the results row for a (group, strain) cell starts at all zeros
and, after the exposure loop, each entry is the exact sum over the cell's
exposure events of the corresponding entry of the solver's trajectory —
strictly additive superposition with no subtraction, saturation or
cross-exposure interaction (with two events it is the element-wise sum of the
two individually simulated trajectories). -/
theorem results_row_superposition (solver : List ℚ → List ℚ → List ℚ) (inp : PInput)
    (strain : ℤ) (tmp : List ℤ) (fp0 : List ℚ) (ii : ℕ) (h : ii < inp.times.length) :
    ((expLoop solver inp strain tmp (List.replicate inp.times.length 0) fp0).1).getD ii 0
      = (tmp.map (fun e => (solver (assemblePars inp strain e) inp.times).getD ii 0)).sum := by
  rw [expLoop_row solver inp strain tmp _ fp0 ii (by simpa using h),
    replicate_zero_getD, zero_add]

/-- Claim C9 (witness): the superposition law at the two-exposure input
`inpC3A` with the constant stub solver, at time index 0. -/
theorem results_row_superposition_witness :
    0 < inpC3A.times.length ∧
    ((expLoop solver0 inpC3A 0 [0, 1] (List.replicate inpC3A.times.length 0) []).1).getD 0 0
      = ([0, 1].map
          (fun e => (solver0 (assemblePars inpC3A 0 e) inpC3A.times).getD 0 0)).sum :=
  ⟨by decide, results_row_superposition solver0 inpC3A 0 [0, 1] [] 0 (by decide)⟩

/-- Claim C1 (code bug): the per-individual scoring loop at posterior.cpp line
152 is `for (int jj = 0; j < individuals[i]; ++jj)` — the condition tests the
strain counter `j`, not the individual counter `jj`, and neither changes in
the loop.  On the claim's own layout (2 groups, `individuals = [2, 1]`,
1 strain, 3 data rows) the loop at group 1's only strain has `j = 0 <
individuals[0] = 2` forever: within 5 observed iterations it consumes data
rows 0, 1, 2, 3, 4 — all against group 1's single cell, overrunning the
matrix — and the run is still diverged, so the 3rd row is never scored
against group 2's row and the evaluation never returns. -/
theorem posterior_individual_loop_overruns :
    (posterior_func_group_cpp L0 solver0 inpC1 5).rowsConsumed
      = [(0, 0, 0), (0, 0, 1), (0, 0, 2), (0, 0, 3), (0, 0, 4)]
    ∧ (posterior_func_group_cpp L0 solver0 inpC1 5).diverged = true :=
  ⟨rfl, rfl⟩

/-- Claim C2 (code bug): a single evaluation does not terminate on the
minimal well-formed input `inpC2` (1 group, 1 strain, 1 individual, 1 time
point): for every observation bound `fuel`, the per-individual loop's
condition `j < individuals[i]` (with `j = 0` fixed) is still true, so the
run is diverged — the C++ loop never exits. -/
theorem posterior_never_terminates :
    ∀ fuel : ℕ, (posterior_func_group_cpp L0 solver0 inpC2 fuel).diverged = true :=
  fun fuel => runPost_diverged L0 solver0 inpC2 fuel (by decide) (by decide) (by decide)

/-- Claim C3 (counterexample): `inpC3A` and `inpC3B` have identical parameter
vectors and identical data, and their (group 1, strain 1) results rows are
identical; they differ only in the order in which the group's two exposures
are listed.  Yet the first scoring contribution differs (NaN against a finite
value), because the scoring call passes the `fullPars` of whichever exposure
was assembled last, whose leading entries are read as (S, EA, MAX_TITRE). -/
theorem posterior_scoring_depends_on_last_exposure :
    inpC3A.pars = inpC3B.pars ∧ inpC3A.data = inpC3B.data ∧
    (expLoop solver0 inpC3A (inpC3A.strains.getD 0 0 - 1) (tmpExposures inpC3A 0)
      (List.replicate inpC3A.times.length 0) []).1
      = (expLoop solver0 inpC3B (inpC3B.strains.getD 0 0 - 1) (tmpExposures inpC3B 0)
        (List.replicate inpC3B.times.length 0) []).1 ∧
    (posterior_func_group_cpp L0 solver0 inpC3A 1).contribs
      ≠ (posterior_func_group_cpp L0 solver0 inpC3B 1).contribs := by
  have hA : expLoop solver0 inpC3A (inpC3A.strains.getD 0 0 - 1) (tmpExposures inpC3A 0)
      (List.replicate inpC3A.times.length 0) [] = ([8], [2, 0, 8, 0, 1, 1, 0]) := by
    rw [show expLoop solver0 inpC3A (inpC3A.strains.getD 0 0 - 1) (tmpExposures inpC3A 0)
        (List.replicate inpC3A.times.length 0) []
        = ([0 + 4 + 4], [2, 0, 8, 0, 1, 1, 0]) from rfl]
    norm_num
  have hB : expLoop solver0 inpC3B (inpC3B.strains.getD 0 0 - 1) (tmpExposures inpC3B 0)
      (List.replicate inpC3B.times.length 0) [] = ([8], [1/2, 1/4, 8, 0, 1, 1, 0]) := by
    rw [show expLoop solver0 inpC3B (inpC3B.strains.getD 0 0 - 1) (tmpExposures inpC3B 0)
        (List.replicate inpC3B.times.length 0) []
        = ([0 + 4 + 4], [1/2, 1/4, 8, 0, 1, 1, 0]) from rfl]
    norm_num
  refine ⟨rfl, rfl, by rw [hA, hB], ?_⟩
  rw [runPost_contribs L0 solver0 inpC3A 1 (by decide) (by decide) (by decide),
    runPost_contribs L0 solver0 inpC3B 1 (by decide) (by decide) (by decide), hA, hB]
  norm_num [obs_likelihood, siteProb, flog, obs_error, obsS, obsEA, obsM, ratToInt,
    clampStep, FVal.add, L0, List.getD, inpC3A, inpC3B,
    show List.range 1 = [0] from rfl]
  decide

/-- Claim C3 (amended): every per-individual scoring call passes the
loop-carried `fullPars` vector — the parameter vector assembled for the most
recently processed exposure event — as the parameter argument of
`obs_likelihood`, which reads its entries 0, 1 and 2 as (S, EA, MAX_TITRE).
So an individual's contribution is a function of the simulated results row,
the observed data row, and the last-assembled exposure's parameter vector;
it matches the spec's (S, EA, MAX_TITRE) behaviour only under a caller
convention that every exposure type's parameter block begins with those three
values. -/
theorem posterior_scoring_passes_fullPars (L : ℚ → ℚ)
    (solver : List ℚ → List ℚ → List ℚ) (inp : PInput) (fuel : ℕ)
    (hg : 0 < inp.groups.length) (hs : 0 < inp.strains.length)
    (hi : 0 < inp.individuals.getD 0 0) :
    (posterior_func_group_cpp L solver inp fuel).contribs
      = (List.range fuel).map (fun t =>
          (obs_likelihood L
            (expLoop solver inp (inp.strains.getD 0 0 - 1) (tmpExposures inp 0)
              (List.replicate inp.times.length 0) []).1
            (inp.data.getD t [])
            (expLoop solver inp (inp.strains.getD 0 0 - 1) (tmpExposures inp 0)
              (List.replicate inp.times.length 0) []).2).ln) :=
  runPost_contribs L solver inp fuel hg hs hi

/-- Claim C3 (witness): the amended characterization at `inpC3A` with one
observed scoring iteration. -/
theorem posterior_scoring_passes_fullPars_witness :
    0 < inpC3A.groups.length ∧ 0 < inpC3A.strains.length ∧
    0 < inpC3A.individuals.getD 0 0 ∧
    (posterior_func_group_cpp L0 solver0 inpC3A 1).contribs
      = (List.range 1).map (fun t =>
          (obs_likelihood L0
            (expLoop solver0 inpC3A (inpC3A.strains.getD 0 0 - 1) (tmpExposures inpC3A 0)
              (List.replicate inpC3A.times.length 0) []).1
            (inpC3A.data.getD t [])
            (expLoop solver0 inpC3A (inpC3A.strains.getD 0 0 - 1) (tmpExposures inpC3A 0)
              (List.replicate inpC3A.times.length 0) []).2).ln) :=
  ⟨by decide, by decide, by decide,
    posterior_scoring_passes_fullPars L0 solver0 inpC3A 1 (by decide) (by decide)
      (by decide)⟩
